import Mathlib

/-
Verification development for the Women Travel Safety API backend
(src/main.py, src/schemas.py).

The program is a FastAPI CRUD service over a MongoDB-style document store.
This file gives a shallow embedding of the data model and the endpoint
handlers, together with theorems settling the specified claims.

Modelling conventions:
- MongoDB ObjectId values are modelled as natural numbers, assigned from a
  per-database counter (spec section 3: an opaque globally-unique identifier
  assigned at creation; any unique ID scheme is acceptable).
- Python floats are modelled as exact rationals; Python round(x, 2) is
  modelled as rounding to two decimals with ties to even (round half to
  even, the rounding used by Python round).
- The persistence layer (database.py, not part of src/) is modelled from the
  spec, section 6: insert appends a document under a fresh id, find/find_one
  filter in insertion order, update_one rewrites the first matching document.
- Case-insensitive Mongo regex matching is modelled over Char.toLower.
-/

namespace WTS

/- ## Rounding: Python round(x, 2) over exact rationals -/

/-- Nearest integer to a rational, ties resolved to the even integer;
this is the rounding rule of Python round. -/
def roundHalfEven (q : ℚ) : ℤ :=
  if q - Int.floor q < 1/2 then Int.floor q
  else if q - Int.floor q > 1/2 then Int.floor q + 1
  else if Int.floor q % 2 = 0 then Int.floor q else Int.floor q + 1

/-- Python round(q, 2): round to two decimal places, ties to even. -/
def round2 (q : ℚ) : ℚ := (roundHalfEven (q * 100) : ℚ) / 100

/- ## Case-insensitive regex matching (the fragment list_places generates)

list_places interpolates the raw query parameters into anchored and
unanchored $regex filters with the i option.  The fragment modelled here is
what the analysis needs: literal characters and the metacharacter dot
(match any one character).  A pattern containing any other regex
metacharacter is outside the model and treated as non-matching. -/

/-- One token of a regex pattern: a literal character or the dot
metacharacter. -/
inductive RTok where
  | lit (c : Char)
  | dot
deriving DecidableEq

/-- Regex metacharacters other than the dot; patterns containing these are
outside the modelled fragment. -/
def regexMeta : List Char :=
  ['\\', '^', '$', '|', '?', '*', '+', '(', ')', '[', ']', '\x7b', '\x7d']

/-- Reads a pattern string into tokens; fails on metacharacters outside the
modelled fragment. -/
def parseRegex : List Char → Option (List RTok)
  | [] => some []
  | c :: cs =>
    if c ∈ regexMeta then none
    else match parseRegex cs with
      | none => none
      | some ts => some ((if c = '.' then RTok.dot else RTok.lit c) :: ts)

/-- Case-insensitive match of one token against one character. -/
def tokMatch : RTok → Char → Bool
  | RTok.dot, _ => true
  | RTok.lit a, c => a.toLower == c.toLower

/-- Anchored match: the tokens consume the whole character list.  Models a
regex of the shape caret-pattern-dollar under option i. -/
def toksMatchAll : List RTok → List Char → Bool
  | [], [] => true
  | [], _ :: _ => false
  | _ :: _, [] => false
  | t :: ts, c :: cs => tokMatch t c && toksMatchAll ts cs

/-- Match at the start of the character list; trailing characters may
remain. -/
def toksMatchHead : List RTok → List Char → Bool
  | [], _ => true
  | _ :: _, [] => false
  | t :: ts, c :: cs => tokMatch t c && toksMatchHead ts cs

/-- Unanchored match: the tokens match some contiguous slice.  Models a
bare $regex filter under option i. -/
def toksMatchSome (ts : List RTok) : List Char → Bool
  | [] => toksMatchHead ts []
  | c :: cs => toksMatchHead ts (c :: cs) || toksMatchSome ts cs

/-- Full-string case-insensitive regex match, as produced by the city and
type filters of list_places. -/
def regexMatchFull (pat s : String) : Bool :=
  match parseRegex pat.data with
  | some ts => toksMatchAll ts s.data
  | none => false

/-- Substring case-insensitive regex match, as produced by the q filter of
list_places. -/
def regexMatchSub (pat s : String) : Bool :=
  match parseRegex pat.data with
  | some ts => toksMatchSome ts s.data
  | none => false

/-- True when the string contains neither the dot metacharacter nor any
other regex metacharacter, so that the pattern denotes itself literally. -/
def regexLiteral (s : String) : Bool :=
  s.data.all (fun ch => !(ch = '.' || ch ∈ regexMeta))

/- ## Plain case-insensitive string predicates (the vocabulary of the spec) -/

/-- Characters of a string, lower-cased. -/
def lowerChars (s : String) : List Char := s.data.map Char.toLower

/-- Case-insensitive full-string equality. -/
def ciEq (a b : String) : Bool := decide (lowerChars a = lowerChars b)

/-- First list is an initial segment of the second. -/
def headSeq : List Char → List Char → Bool
  | [], _ => true
  | _ :: _, [] => false
  | a :: ps, c :: cs => a == c && headSeq ps cs

/-- First list occurs as a contiguous slice of the second. -/
def someSeq (p : List Char) : List Char → Bool
  | [] => headSeq p []
  | c :: cs => headSeq p (c :: cs) || someSeq p cs

/-- Case-insensitive substring containment. -/
def ciSub (pat s : String) : Bool := someSeq (lowerChars pat) (lowerChars s)

/- ## Data model (src/schemas.py) -/

/-- Places collection schema (schemas.py, class Place).  safety_score is a
float in [0, 5] with declared default 3.5. -/
structure Place where
  name : String
  city : String
  type : String
  safety_score : ℚ
  description : String
  main_tags : List String

/-- Reviews collection schema (schemas.py, class Review), together with the
created_at field.  Modelled from the spec: database.py (create_document) is
not under src/; spec section 4.1 states that add_review inserts the review
with a server-assigned creation timestamp, and GET reviews sorts on
created_at.  created_at is therefore modelled as a server counter stamped
at insertion. -/
structure Review where
  user_id : String
  place_id : Nat
  rating : Int
  safety_tags : List String
  comment : Option String
  night_safe : Bool
  harassment : Bool
  created_at : Nat

/-- Users collection schema (schemas.py, class User). -/
structure User where
  name : String
  email : String
  photo : Option String
  saved_places : List String
  saved_cities : List String

/-- Quiz request body (main.py, class QuizAnswer). -/
structure QuizAnswer where
  comfort_level : String
  solo_experience : String
  night_travel : String
  anxiety_triggers : List String
  transport_confidence : String

/-- Quiz results collection schema (schemas.py, class QuizResult); the raw
answers snapshot is kept in its typed form. -/
structure QuizResult where
  user_id : Option String
  persona : String
  recommendations : List String
  answers : QuizAnswer

/- ## Document store (modelled from the spec, section 6)

Modelled from the spec: database.py is not under src/.  Section 6 gives the
persistence collaborator as insert(collection, document) giving an id,
find_one(collection, filter) giving a document or absent, find with an
optional sort, and update_one(collection, filter, mutation).  The store is
modelled as one association list per collection, in insertion order, with a
global fresh-id counter and a monotone timestamp counter. -/

/-- The whole document store. -/
structure DB where
  place : List (Nat × Place)
  review : List (Nat × Review)
  user : List (Nat × User)
  quizresult : List (Nat × QuizResult)
  nextId : Nat
  nextTime : Nat

/-- The empty store. -/
def emptyDB : DB :=
  { place := [], review := [], user := [], quizresult := [],
    nextId := 0, nextTime := 0 }

/-- find_one by _id: first document with the given id, in insertion
order. -/
def findFirst (l : List (Nat × α)) (k : Nat) : Option (Nat × α) :=
  l.find? (fun p => p.1 == k)

/-- update_one by _id: rewrite the first document with the given id, leave
the rest untouched. -/
def updateFirst : List (Nat × α) → Nat → (α → α) → List (Nat × α)
  | [], _, _ => []
  | (i, a) :: t, k, f =>
    if i = k then (i, f a) :: t else (i, a) :: updateFirst t k f

/- ## Serialized response documents (main.py, serialize)

serialize moves the _id of a document into an id field; on an absent
document it passes the absence through unchanged (the falsy check at the
top of serialize). -/

/-- Serialized Place, as returned by GET /places. -/
structure SPlace where
  id : Nat
  name : String
  city : String
  type : String
  safety_score : ℚ
  description : String
  main_tags : List String

/-- Serialized Review, as returned by GET /places/{place_id}/reviews. -/
structure SReview where
  id : Nat
  user_id : String
  place_id : Nat
  rating : Int
  safety_tags : List String
  comment : Option String
  night_safe : Bool
  harassment : Bool
  created_at : Nat

/-- Serialized User, as returned by the auth and profile endpoints. -/
structure SUser where
  id : Nat
  name : String
  email : String
  photo : Option String
  saved_places : List String
  saved_cities : List String

/-- serialize for a present place document. -/
def serializePlace (p : Nat × Place) : SPlace :=
  { id := p.1, name := p.2.name, city := p.2.city, type := p.2.type,
    safety_score := p.2.safety_score, description := p.2.description,
    main_tags := p.2.main_tags }

/-- serialize for a present review document. -/
def serializeReview (p : Nat × Review) : SReview :=
  { id := p.1, user_id := p.2.user_id, place_id := p.2.place_id,
    rating := p.2.rating, safety_tags := p.2.safety_tags,
    comment := p.2.comment, night_safe := p.2.night_safe,
    harassment := p.2.harassment, created_at := p.2.created_at }

/-- serialize for a possibly absent user document, absence passed
through. -/
def serializeUser : Option (Nat × User) → Option SUser
  | none => none
  | some (i, u) =>
    some { id := i, name := u.name, email := u.email, photo := u.photo,
           saved_places := u.saved_places, saved_cities := u.saved_cities }

/- ## Error kinds surfaced by the handlers -/

/-- Client-visible error kinds of the modelled endpoints: the 422 of the
request-body validation layer and the 404 of the handlers. -/
inductive ApiError where
  | validation
  | notFound
deriving DecidableEq

/- ## Seed data (main.py, seed_sample) -/

/-- First seeded place. -/
def place1 : Place :=
  { name := "Aurora Boutique Hotel", city := "Lisbon", type := "hotel",
    safety_score := 4.7,
    description := "Women-staffed, well-lit area; guests report safe returns at night.",
    main_tags := ["women-staffed", "well-lit", "central"] }

/-- Second seeded place. -/
def place2 : Place :=
  { name := "Garden District", city := "Singapore", type := "neighborhood",
    safety_score := 4.9,
    description := "Exceptionally safe at night; strong street presence and cameras.",
    main_tags := ["night-safe", "family-friendly", "clean"] }

/-- Third seeded place. -/
def place3 : Place :=
  { name := "Olive & Thyme", city := "Barcelona", type := "restaurant",
    safety_score := 4.4,
    description := "Busy staff presence, friendly crowd; avoid very late weekends.",
    main_tags := ["staff-present", "friendly", "busy"] }

/-- Inserts one place under a fresh id (create_document on the place
collection, modelled from the spec, section 6). -/
def insertPlace (db : DB) (pl : Place) : DB × Nat :=
  ({ db with place := db.place ++ [(db.nextId, pl)], nextId := db.nextId + 1 },
   db.nextId)

/-- POST /seed: inserts the three sample places and returns their ids. -/
def seed_sample (db : DB) : DB × List Nat :=
  let (db1, i1) := insertPlace db place1
  let (db2, i2) := insertPlace db1 place2
  let (db3, i3) := insertPlace db2 place3
  (db3, [i1, i2, i3])

/- ## GET /places (main.py, list_places) -/

/-- One exact-match filter of list_places: a truthy parameter becomes an
anchored case-insensitive $regex on the field, a missing or empty
parameter adds no filter (the Python truthiness check). -/
def exactFilt (par : Option String) (v : String) : Bool :=
  match par with
  | none => true
  | some c => if c = "" then true else regexMatchFull c v

/-- The q filter of list_places: a truthy q becomes an $or of unanchored
case-insensitive $regex filters on name, description and the elements of
main_tags. -/
def qFilt (par : Option String) (pl : Place) : Bool :=
  match par with
  | none => true
  | some s =>
    if s = "" then true
    else regexMatchSub s pl.name || regexMatchSub s pl.description ||
         pl.main_tags.any (fun tag => regexMatchSub s tag)

/-- The conjunction of filters list_places builds out of the provided
parameters. -/
def placePasses (city ty q : Option String) (pl : Place) : Bool :=
  exactFilt city pl.city && exactFilt ty pl.type && qFilt q pl

/-- GET /places: returns the serialized places passing the filter
conjunction, in store order. -/
def list_places (db : DB) (city ty q : Option String) : List SPlace :=
  (db.place.filter (fun p => placePasses city ty q p.2)).map serializePlace

/- ## POST /places/{place_id}/reviews (main.py, add_review) -/

/-- Request body of add_review (main.py, class NewReview) before the
declared rating bounds are enforced. -/
structure NewReview where
  user_id : String
  rating : Int
  safety_tags : List String
  comment : Option String
  night_safe : Bool
  harassment : Bool

/-- The rating list add_review recomputes: the ratings of all stored
reviews whose place_id equals the given one, in insertion order. -/
def ratingsFor (db : DB) (pid : Nat) : List Int :=
  (db.review.filter (fun r => r.2.place_id == pid)).map (fun r => r.2.rating)

/-- Arithmetic mean of a list of integer ratings, as a rational. -/
def ratAvg (l : List Int) : ℚ := (l.map (fun n => (n : ℚ))).sum / l.length

/-- Rewrites the safety score of a place document (the $set mutation of
add_review). -/
def setScore (s : ℚ) (pl : Place) : Place := { pl with safety_score := s }

/-- The review document add_review builds, stamped with the server
creation time. -/
def reviewDoc (db : DB) (pid : Nat) (payload : NewReview) : Review :=
  { user_id := payload.user_id, place_id := pid, rating := payload.rating,
    safety_tags := payload.safety_tags, comment := payload.comment,
    night_safe := payload.night_safe, harassment := payload.harassment,
    created_at := db.nextTime }

/-- The store after create_document inserts the new review. -/
def dbAfterInsertReview (db : DB) (pid : Nat) (payload : NewReview) : DB :=
  { db with review := db.review ++ [(db.nextId, reviewDoc db pid payload)],
            nextId := db.nextId + 1, nextTime := db.nextTime + 1 }

/-- The store after the full successful add_review effect: review inserted,
then the score of the place rewritten to the rounded mean of all stored
ratings for the place. -/
def dbAfterScore (db : DB) (pid : Nat) (payload : NewReview) : DB :=
  { dbAfterInsertReview db pid payload with
    place := (updateFirst (dbAfterInsertReview db pid payload).place pid
      (setScore (round2 (ratAvg
        (ratingsFor (dbAfterInsertReview db pid payload) pid))))) }

/-- The add_review handler: checks the place exists, inserts the review,
then recomputes the safety score of the place as the rounded mean of all
stored ratings for the place (the list is never empty here, the new review
being among them) and rewrites it onto the place document. -/
def add_review (db : DB) (pid : Nat) (payload : NewReview) :
    DB × Except ApiError Nat :=
  match findFirst db.place pid with
  | none => (db, Except.error ApiError.notFound)
  | some _ =>
    let rid := db.nextId
    let db1 := dbAfterInsertReview db pid payload
    let ratings := ratingsFor db1 pid
    if ratings.length = 0 then (db1, Except.ok rid)
    else
      ({ db1 with
         place := (updateFirst db1.place pid (setScore (round2 (ratAvg ratings)))) },
       Except.ok rid)

/-- The add_review route including the request-body validation layer:
pydantic enforces rating between 1 and 5 before the handler runs, so an
out-of-range rating is rejected with no write at all. -/
def add_review_route (db : DB) (pid : Nat) (payload : NewReview) :
    DB × Except ApiError Nat :=
  if 1 ≤ payload.rating ∧ payload.rating ≤ 5 then add_review db pid payload
  else (db, Except.error ApiError.validation)

/- ## GET /places/{place_id}/reviews (main.py, list_reviews) -/

/-- GET reviews for a place: all stored reviews with that place_id, sorted
on created_at descending, serialized.  No existence check on the place. -/
def list_reviews (db : DB) (pid : Nat) : List SReview :=
  ((db.review.filter (fun r => r.2.place_id == pid)).mergeSort
    (fun a b => decide (b.2.created_at ≤ a.2.created_at))).map serializeReview

/- ## POST /quiz (main.py, evaluate_quiz) -/

/-- The point score of the quiz heuristic, translated clause by clause from
evaluate_quiz. -/
def quizScore (ans : QuizAnswer) : Nat :=
  (if ans.comfort_level ∈ (["high", "medium"] : List String) then
     (if ans.comfort_level = "high" then 2 else 1) else 0)
  + (if ans.solo_experience ∈ (["5+", "2-4"] : List String) then
       (if ans.solo_experience = "5+" then 2 else 1) else 0)
  + (if ans.night_travel = "comfortable" then 2 else 0)
  + (if "crowds" ∈ ans.anxiety_triggers then 0 else 1)
  + (if ans.transport_confidence ∈ (["metro", "ride-share"] : List String)
       then 1 else 0)

/-- Persona and recommendation list from the score thresholds of
evaluate_quiz. -/
def quizOutcome (ans : QuizAnswer) : String × List String :=
  let score := quizScore ans
  if score ≥ 6 then ("Trailblazer", ["Singapore", "Lisbon", "Copenhagen"])
  else if score ≥ 4 then ("Planner", ["Tokyo", "Vienna", "Seoul"])
  else ("Cautious Explorer", ["Reykjavik", "Zurich", "Taipei"])

/-- Response body of POST /quiz. -/
structure QuizResp where
  id : Nat
  persona : String
  recommendations : List String

/-- POST /quiz: scores the answers, persists a QuizResult document and
returns id, persona and recommendations. -/
def evaluate_quiz (db : DB) (ans : QuizAnswer) (user_id : Option String) :
    DB × QuizResp :=
  let outcome := quizOutcome ans
  let result : QuizResult :=
    { user_id := user_id, persona := outcome.1,
      recommendations := outcome.2, answers := ans }
  let rid := db.nextId
  let db1 := { db with quizresult := db.quizresult ++ [(rid, result)],
                       nextId := db.nextId + 1 }
  (db1, { id := rid, persona := outcome.1, recommendations := outcome.2 })

/- ## POST /auth/signup (main.py, signup) -/

/-- Request body of signup (main.py, class Signup). -/
structure SignupBody where
  name : String
  email : String
  photo : Option String

/-- The user document signup inserts on a fresh email: empty saved
lists. -/
def freshUser (payload : SignupBody) : User :=
  { name := payload.name, email := payload.email, photo := payload.photo,
    saved_places := [], saved_cities := [] }

/-- POST /auth/signup: find_one by exact email; if found return it
serialized and unchanged, else insert a fresh user with empty saved lists
and return it read back by id. -/
def signup (db : DB) (payload : SignupBody) : DB × Option SUser :=
  match db.user.find? (fun p => p.2.email == payload.email) with
  | some p => (db, serializeUser (some p))
  | none =>
    ({ db with user := db.user ++ [(db.nextId, freshUser payload)],
               nextId := db.nextId + 1 },
     serializeUser
       (findFirst (db.user ++ [(db.nextId, freshUser payload)]) db.nextId))

/- ## POST /me/{user_id}/save (main.py, save_place) -/

/-- Request body of save_place (main.py, class SavePlace). -/
structure SavePlaceBody where
  place_id : String

/-- Mongo $addToSet on a list field: append the value only when absent. -/
def addToSet (l : List String) (x : String) : List String :=
  if x ∈ l then l else l ++ [x]

/-- The $addToSet mutation of save_place on a user document. -/
def addSaved (pid : String) (u : User) : User :=
  { u with saved_places := addToSet u.saved_places pid }

/-- POST /me/{user_id}/save: update_one by _id adding the place id to the
saved_places set (affecting zero documents when the user is absent), then
read the user back and serialize, absence passing through as an empty
response. -/
def save_place (db : DB) (uid : Nat) (payload : SavePlaceBody) :
    DB × Option SUser :=
  ({ db with user := (updateFirst db.user uid (addSaved payload.place_id)) },
   serializeUser
     (findFirst (updateFirst db.user uid (addSaved payload.place_id)) uid))

/- ## GET /me/{user_id} (main.py, profile) -/

/-- GET profile: 404 when the user is absent, else the serialized user. -/
def profile (db : DB) (uid : Nat) : Except ApiError SUser :=
  match findFirst db.user uid with
  | none => Except.error ApiError.notFound
  | some p =>
    match serializeUser (some p) with
    | none => Except.error ApiError.notFound
    | some su => Except.ok su

/- ## Reachable stores

A store is reachable when it arises from the empty store by a sequence of
the mutating endpoints with arbitrary requests. -/

/-- The store after the seeded database. -/
def seededDB : DB := (seed_sample emptyDB).1

/-- Reachability of a store state through the mutating endpoints. -/
inductive Reachable : DB → Prop where
  | init : Reachable emptyDB
  | seed {db : DB} : Reachable db → Reachable (seed_sample db).1
  | review {db : DB} (pid : Nat) (payload : NewReview) :
      Reachable db → Reachable (add_review_route db pid payload).1
  | quiz {db : DB} (ans : QuizAnswer) (uid : Option String) :
      Reachable db → Reachable (evaluate_quiz db ans uid).1
  | signupStep {db : DB} (payload : SignupBody) :
      Reachable db → Reachable (signup db payload).1
  | save {db : DB} (uid : Nat) (payload : SavePlaceBody) :
      Reachable db → Reachable (save_place db uid payload).1

/- ## Spec-side quiz scoring (the wording of the spec, for comparison) -/

/-- Quiz score as the spec words it: +2 for comfort high, +1 medium; +2 for
five or more solo trips, +1 for two to four; +2 for comfortable night
travel; +1 when crowds is absent from the anxiety triggers; +1 for metro or
ride-share transport confidence. -/
def specQuizScore (ans : QuizAnswer) : Nat :=
  (if ans.comfort_level = "high" then 2
   else if ans.comfort_level = "medium" then 1 else 0)
  + (if ans.solo_experience = "5+" then 2
     else if ans.solo_experience = "2-4" then 1 else 0)
  + (if ans.night_travel = "comfortable" then 2 else 0)
  + (if "crowds" ∈ ans.anxiety_triggers then 0 else 1)
  + (if ans.transport_confidence = "metro" ∨
        ans.transport_confidence = "ride-share" then 1 else 0)

/-- Persona and recommendations as the spec words them: score at least 6
gives Trailblazer, at least 4 gives Planner, else Cautious Explorer, each
with its fixed list. -/
def specQuizOutcome (ans : QuizAnswer) : String × List String :=
  if specQuizScore ans ≥ 6 then
    ("Trailblazer", ["Singapore", "Lisbon", "Copenhagen"])
  else if specQuizScore ans ≥ 4 then ("Planner", ["Tokyo", "Vienna", "Seoul"])
  else ("Cautious Explorer", ["Reykjavik", "Zurich", "Taipei"])

/-- The two concrete quiz inputs of the testable properties. -/
def ansTrail : QuizAnswer :=
  { comfort_level := "high", solo_experience := "5+",
    night_travel := "comfortable", anxiety_triggers := [],
    transport_confidence := "metro" }

/-- The cautious concrete quiz input of the testable properties. -/
def ansCautious : QuizAnswer :=
  { comfort_level := "low", solo_experience := "0-1",
    night_travel := "uncomfortable", anxiety_triggers := ["crowds"],
    transport_confidence := "walk" }

/- ## Store-level helper lemmas -/

/-- A document found by id carries that id. -/
lemma findFirst_fst {l : List (Nat × α)} {k : Nat} {p : Nat × α}
    (h : findFirst l k = some p) : p.1 = k := by
  have := List.find?_some h
  simpa using this

/-- A document found by id is in the collection. -/
lemma findFirst_mem {l : List (Nat × α)} {k : Nat} {p : Nat × α}
    (h : findFirst l k = some p) : p ∈ l :=
  List.mem_of_find?_eq_some h

/-- find_one over a concatenation looks left first. -/
lemma findFirst_append (l1 l2 : List (Nat × α)) (k : Nat) :
    findFirst (l1 ++ l2) k = (findFirst l1 k).or (findFirst l2 k) := by
  simp [findFirst, List.find?_append]

/-- find_one unfolded one document at a time. -/
lemma findFirst_cons (i : Nat) (a : α) (t : List (Nat × α)) (k : Nat) :
    findFirst ((i, a) :: t) k = if i = k then some (i, a) else findFirst t k := by
  by_cases hik : i = k <;> simp [findFirst, List.find?_cons, hik]

/-- update_one on an absent id changes nothing. -/
lemma updateFirst_of_none {l : List (Nat × α)} {k : Nat} (f : α → α)
    (h : findFirst l k = none) : updateFirst l k f = l := by
  induction l with
  | nil => rfl
  | cons hd t ih =>
    rcases hd with ⟨i, a⟩
    rw [findFirst_cons] at h
    by_cases hik : i = k
    · simp [hik] at h
    · rw [if_neg hik] at h
      simp [updateFirst, hik, ih h]

/-- update_one does not change the ids of the collection. -/
lemma map_fst_updateFirst (l : List (Nat × α)) (k : Nat) (f : α → α) :
    (updateFirst l k f).map Prod.fst = l.map Prod.fst := by
  induction l with
  | nil => rfl
  | cons hd t ih =>
    rcases hd with ⟨i, a⟩
    by_cases hik : i = k
    · simp [updateFirst, hik]
    · simp [updateFirst, hik, ih]

/-- Reading back the updated id after update_one gives the rewritten
document. -/
lemma findFirst_updateFirst (l : List (Nat × α)) (k : Nat) (f : α → α) :
    findFirst (updateFirst l k f) k =
      (findFirst l k).map (fun p => (p.1, f p.2)) := by
  induction l with
  | nil => rfl
  | cons hd t ih =>
    rcases hd with ⟨i, a⟩
    by_cases hik : i = k
    · simp [updateFirst, hik, findFirst_cons]
    · simp [updateFirst, hik, findFirst_cons, ih]

/-- Membership in an updated collection, given distinct ids: an element is
either an untouched document with a different id, or the rewrite of the
unique document carrying the id. -/
lemma mem_updateFirst_nodup {l : List (Nat × α)} {k : Nat} {f : α → α}
    (hnd : (l.map Prod.fst).Nodup) {x : Nat × α}
    (hx : x ∈ updateFirst l k f) :
    (x ∈ l ∧ x.1 ≠ k) ∨
      (∃ a, findFirst l k = some (k, a) ∧ x = (k, f a)) := by
  induction l with
  | nil => simp [updateFirst] at hx
  | cons hd t ih =>
    rcases hd with ⟨i, a⟩
    simp only [List.map_cons, List.nodup_cons] at hnd
    by_cases hik : i = k
    · subst hik
      simp only [updateFirst, if_pos rfl] at hx
      rcases List.mem_cons.mp hx with hx1 | hx2
      · exact Or.inr ⟨a, by simp [findFirst_cons], hx1⟩
      · refine Or.inl ⟨List.mem_cons_of_mem _ hx2, ?_⟩
        intro hxk
        exact hnd.1 (List.mem_map.mpr ⟨x, hx2, hxk⟩)
    · simp only [updateFirst, if_neg hik] at hx
      rcases List.mem_cons.mp hx with hx1 | hx2
      · exact Or.inl ⟨by simp [hx1], by simp [hx1, hik]⟩
      · rcases ih hnd.2 hx2 with ⟨hmem, hne⟩ | ⟨b, hfind, hxb⟩
        · exact Or.inl ⟨List.mem_cons_of_mem _ hmem, hne⟩
        · refine Or.inr ⟨b, ?_, hxb⟩
          rw [findFirst_cons, if_neg hik]
          exact hfind

/- ## Claim C3: the quiz is a deterministic scoring function -/

/-- The score computed by the handler agrees with the score as the spec
words it. -/
lemma quizScore_eq_spec (ans : QuizAnswer) :
    quizScore ans = specQuizScore ans := by
  unfold quizScore specQuizScore
  simp only [List.mem_cons, List.not_mem_nil, or_false]
  split_ifs <;> simp_all

/-- The persona and recommendations computed by the handler agree with the
spec thresholds. -/
lemma quizOutcome_eq_spec (ans : QuizAnswer) :
    quizOutcome ans = specQuizOutcome ans := by
  unfold quizOutcome specQuizOutcome
  rw [quizScore_eq_spec]

/-- C3: evaluate_quiz is a deterministic function of the five answer
fields, scoring and classifying exactly as the spec states, and the two
concrete inputs of testable property 6 give Trailblazer with Singapore,
Lisbon, Copenhagen and Cautious Explorer with Reykjavik, Zurich, Taipei. -/
theorem evaluate_quiz_deterministic :
    (∀ (db : DB) (ans : QuizAnswer) (uid : Option String),
        ((evaluate_quiz db ans uid).2.persona,
          (evaluate_quiz db ans uid).2.recommendations) = specQuizOutcome ans)
    ∧ ((evaluate_quiz emptyDB ansTrail none).2.persona = "Trailblazer"
        ∧ (evaluate_quiz emptyDB ansTrail none).2.recommendations
            = ["Singapore", "Lisbon", "Copenhagen"])
    ∧ ((evaluate_quiz emptyDB ansCautious none).2.persona
          = "Cautious Explorer"
        ∧ (evaluate_quiz emptyDB ansCautious none).2.recommendations
            = ["Reykjavik", "Zurich", "Taipei"]) := by
  refine ⟨fun db ans uid => ?_, ⟨?_, ?_⟩, ⟨?_, ?_⟩⟩
  · rw [← quizOutcome_eq_spec]
    rfl
  all_goals rfl

/- ## Claim C4: unknown place is rejected with NotFound and no write -/

/-- C4: for a valid payload and a place id matching no stored place,
add_review answers NotFound and the store is returned unchanged: no review
inserted, no place modified. -/
theorem add_review_unknown_place (db : DB) (pid : Nat) (payload : NewReview)
    (hv : 1 ≤ payload.rating ∧ payload.rating ≤ 5)
    (hp : findFirst db.place pid = none) :
    add_review_route db pid payload = (db, Except.error ApiError.notFound) := by
  unfold add_review_route add_review
  rw [if_pos hv, hp]

/-- Witness for C4 at the empty store. -/
theorem add_review_unknown_place_witness :
    add_review_route emptyDB 0
        { user_id := "u1", rating := 3, safety_tags := [], comment := none,
          night_safe := true, harassment := false }
      = (emptyDB, Except.error ApiError.notFound) :=
  add_review_unknown_place emptyDB 0 _ (by norm_num) (by rfl)

/- ## Claim C5: out-of-range rating is rejected before any write -/

/-- C5: a request whose rating is outside one to five is rejected by the
validation layer with no write: the handler never runs and the store is
returned unchanged. -/
theorem add_review_bad_rating (db : DB) (pid : Nat) (payload : NewReview)
    (hv : payload.rating < 1 ∨ 5 < payload.rating) :
    add_review_route db pid payload
      = (db, Except.error ApiError.validation) := by
  unfold add_review_route
  rw [if_neg]
  intro h
  omega

/-- Witness for C5 at ratings zero and six on the seeded store. -/
theorem add_review_bad_rating_witness :
    add_review_route seededDB 0
        { user_id := "u1", rating := 0, safety_tags := [], comment := none,
          night_safe := true, harassment := false }
      = (seededDB, Except.error ApiError.validation)
    ∧ add_review_route seededDB 0
        { user_id := "u1", rating := 6, safety_tags := [], comment := none,
          night_safe := true, harassment := false }
      = (seededDB, Except.error ApiError.validation) :=
  ⟨add_review_bad_rating seededDB 0 _ (by norm_num),
   add_review_bad_rating seededDB 0 _ (by norm_num)⟩

/- ## Claim C10: save for an unknown user writes nothing, answers empty -/

/-- C10: when the user id matches no stored user, save_place leaves every
document unchanged and answers the serialization of an absent document,
an empty response rather than a user or an error. -/
theorem save_place_unknown_user (db : DB) (uid : Nat)
    (payload : SavePlaceBody) (h : findFirst db.user uid = none) :
    save_place db uid payload = (db, none) := by
  unfold save_place
  rw [updateFirst_of_none _ h]
  simp [h, serializeUser]

/-- Witness for C10 at the seeded store, which has no users. -/
theorem save_place_unknown_user_witness :
    save_place seededDB 5 { place_id := "p1" } = (seededDB, none) :=
  save_place_unknown_user seededDB 5 _ (by rfl)

/- ## Claim C1: the safety score converges to the rounded mean -/

/-- The freshly inserted review is among the recomputed ratings, so the
rating list read back by add_review is never empty on success. -/
lemma ratingsFor_insert_ne_nil (db : DB) (pid : Nat) (payload : NewReview) :
    ratingsFor (dbAfterInsertReview db pid payload) pid ≠ [] := by
  simp [ratingsFor, dbAfterInsertReview, List.filter_append, reviewDoc]

/-- Shape of a successful add_review request: the rating passed validation,
the place was found, the fresh id was returned, and the store is the one
with the review appended and the score of the place rewritten to the
rounded mean of all stored ratings for the place. -/
lemma add_review_route_ok {db db' : DB} {pid rid : Nat} {payload : NewReview}
    (h : add_review_route db pid payload = (db', Except.ok rid)) :
    (1 ≤ payload.rating ∧ payload.rating ≤ 5) ∧
    (∃ q, findFirst db.place pid = some q) ∧
    rid = db.nextId ∧
    db' = dbAfterScore db pid payload := by
  unfold add_review_route at h
  by_cases hv : 1 ≤ payload.rating ∧ payload.rating ≤ 5
  · rw [if_pos hv] at h
    unfold add_review at h
    cases hfind : findFirst db.place pid with
    | none =>
      rw [hfind] at h
      simp at h
    | some q =>
      rw [hfind] at h
      simp only at h
      rw [if_neg] at h
      · obtain ⟨hdb, hok⟩ := Prod.mk.injEq .. ▸ h
        refine ⟨hv, ⟨q, rfl⟩, ?_, hdb.symm⟩
        simpa using hok.symm
      · simpa [List.length_eq_zero] using ratingsFor_insert_ne_nil db pid payload
  · rw [if_neg hv] at h
    simp at h

/-- C1: after every successful add_review call, the stored place document
carries safety_score equal to the two-decimal rounded mean of the ratings
of all stored reviews for that place, the newly inserted one included.
Applied after each call of a sequential run, this is the score convergence
property. -/
theorem add_review_score_convergence (db db' : DB) (pid rid : Nat)
    (payload : NewReview)
    (h : add_review_route db pid payload = (db', Except.ok rid)) :
    ∃ pl, findFirst db'.place pid = some (pid, pl) ∧
      pl.safety_score = round2 (ratAvg (ratingsFor db' pid)) := by
  obtain ⟨hv, ⟨q, hq⟩, hrid, hdb⟩ := add_review_route_ok h
  have hq1 : q.1 = pid := findFirst_fst hq
  subst hdb
  refine ⟨setScore
    (round2 (ratAvg (ratingsFor (dbAfterInsertReview db pid payload) pid))) q.2,
    ?_, ?_⟩
  · show findFirst (updateFirst (dbAfterInsertReview db pid payload).place pid _) pid = _
    rw [findFirst_updateFirst]
    have hpl : (dbAfterInsertReview db pid payload).place = db.place := rfl
    rw [hpl, hq]
    simp [hq1]
  · rfl

/-- A concrete review request used in witnesses. -/
def exReview1 : NewReview :=
  { user_id := "u1", rating := 4, safety_tags := [], comment := none,
    night_safe := true, harassment := false }

/-- The store after posting exReview1 for the first seeded place. -/
def dbAfterReview1 : DB := (add_review_route seededDB 0 exReview1).1

/-- Witness for C1: the concrete successful review insert on the seeded
store. -/
theorem add_review_score_convergence_witness :
    ∃ pl, findFirst dbAfterReview1.place 0 = some (0, pl) ∧
      pl.safety_score = round2 (ratAvg (ratingsFor dbAfterReview1 0)) :=
  add_review_score_convergence seededDB dbAfterReview1 0 3 exReview1 (by rfl)

/- ## Claim C7: signup is idempotent on the email -/

/-- The serialized identifier of a present user document is its stored
id. -/
lemma serializeUser_map_id (p : Nat × User) :
    Option.map SUser.id (serializeUser (some p)) = some p.1 := rfl

/-- signup on an email that already has a user returns that document
unchanged and leaves the store untouched. -/
lemma signup_found {db : DB} {payload : SignupBody} {p : Nat × User}
    (hfind : db.user.find? (fun q => q.2.email == payload.email) = some p) :
    signup db payload = (db, serializeUser (some p)) := by
  unfold signup
  rw [hfind]

/-- signup on a fresh email appends the new user document and reads it
back by id. -/
lemma signup_fresh {db : DB} {payload : SignupBody}
    (hfind : db.user.find? (fun q => q.2.email == payload.email) = none) :
    signup db payload =
      ({ db with user := db.user ++ [(db.nextId, freshUser payload)],
                 nextId := db.nextId + 1 },
       serializeUser
         (findFirst (db.user ++ [(db.nextId, freshUser payload)]) db.nextId)) := by
  unfold signup
  rw [hfind]

/-- Reading back an id just appended finds a document carrying that id. -/
lemma findFirst_insert_self (l : List (Nat × α)) (i : Nat) (a : α) :
    ∃ q, findFirst (l ++ [(i, a)]) i = some q ∧ q.1 = i := by
  rw [findFirst_append]
  cases hfo : findFirst l i with
  | none => exact ⟨(i, a), by simp [findFirst_cons], rfl⟩
  | some w => exact ⟨w, by simp, findFirst_fst hfo⟩

/-- C7: signup is idempotent per email: an existing exactly matching email
is returned unchanged with nothing inserted, and two sequential signups
with the same payload return the same user identifier and leave a single
user document, the second call inserting nothing. -/
theorem signup_idempotent (db : DB) (payload : SignupBody) :
    (∀ p, db.user.find? (fun q => q.2.email == payload.email) = some p →
        signup db payload = (db, serializeUser (some p))) ∧
    (signup (signup db payload).1 payload).1.user = (signup db payload).1.user ∧
    (∃ i, Option.map SUser.id (signup db payload).2 = some i ∧
        Option.map SUser.id (signup (signup db payload).1 payload).2 = some i) := by
  cases hfind : db.user.find? (fun q => q.2.email == payload.email) with
  | some p =>
    have h1 := signup_found hfind
    have e1 : (signup db payload).1 = db := by rw [h1]
    refine ⟨fun p' hp' => ?_, ?_, ?_⟩
    · injection hp' with hpp
      subst hpp
      exact h1
    · rw [e1, e1]
    · refine ⟨p.1, ?_, ?_⟩
      · rw [h1]
        show Option.map SUser.id (serializeUser (some p)) = some p.1
        exact serializeUser_map_id p
      · rw [e1, h1]
        show Option.map SUser.id (serializeUser (some p)) = some p.1
        exact serializeUser_map_id p
  | none =>
    have h1 := signup_fresh hfind
    have e1 : (signup db payload).1 =
        { db with user := db.user ++ [(db.nextId, freshUser payload)],
                  nextId := db.nextId + 1 } := by rw [h1]
    have hfind2 : ((db.user ++ [(db.nextId, freshUser payload)]).find?
        (fun q => q.2.email == payload.email))
        = some (db.nextId, freshUser payload) := by
      rw [List.find?_append, hfind]
      simp [freshUser]
    have h2 := @signup_found
      { db with user := db.user ++ [(db.nextId, freshUser payload)],
                nextId := db.nextId + 1 }
      payload (db.nextId, freshUser payload) hfind2
    refine ⟨fun p' hp' => ?_, ?_, ?_⟩
    · cases hp'
    · rw [e1, h2]
    · refine ⟨db.nextId, ?_, ?_⟩
      · rw [h1]
        show Option.map SUser.id (serializeUser
          (findFirst (db.user ++ [(db.nextId, freshUser payload)]) db.nextId))
            = some db.nextId
        obtain ⟨q, hq, hq1⟩ :=
          findFirst_insert_self db.user db.nextId (freshUser payload)
        rw [hq, serializeUser_map_id, hq1]
      · rw [e1, h2]
        show Option.map SUser.id
          (serializeUser (some (db.nextId, freshUser payload))) = some db.nextId
        exact serializeUser_map_id _

/-- A concrete signup payload used in witnesses. -/
def exSignup : SignupBody :=
  { name := "Ada", email := "ada@example.com", photo := none }

/-- The store holding the one user created from exSignup. -/
def dbWithUser : DB := (signup emptyDB exSignup).1

/-- Witness for C7 at the store holding one user. -/
theorem signup_idempotent_witness :
    (∀ p, dbWithUser.user.find? (fun q => q.2.email == exSignup.email) = some p →
        signup dbWithUser exSignup = (dbWithUser, serializeUser (some p))) ∧
    (signup (signup dbWithUser exSignup).1 exSignup).1.user
        = (signup dbWithUser exSignup).1.user ∧
    (∃ i, Option.map SUser.id (signup dbWithUser exSignup).2 = some i ∧
        Option.map SUser.id (signup (signup dbWithUser exSignup).1 exSignup).2
          = some i) :=
  signup_idempotent dbWithUser exSignup

/- ## Claim C9: save_place has set-union semantics -/

/-- The value just added by $addToSet is a member. -/
lemma mem_addToSet_self (l : List String) (x : String) : x ∈ addToSet l x := by
  unfold addToSet
  by_cases h : x ∈ l <;> simp [h]

/-- $addToSet of a value already present changes nothing. -/
lemma addToSet_of_mem {l : List String} {x : String} (h : x ∈ l) :
    addToSet l x = l := by
  simp [addToSet, h]

/-- $addToSet leaves the value occurring exactly once, provided it occurred
at most once before. -/
lemma count_addToSet_self (l : List String) (x : String) (h : l.count x ≤ 1) :
    (addToSet l x).count x = 1 := by
  unfold addToSet
  by_cases hx : x ∈ l
  · rw [if_pos hx]
    have := List.count_pos_iff.mpr hx
    omega
  · rw [if_neg hx, List.count_append, List.count_eq_zero.mpr hx]
    simp

/-- update_one whose mutation fixes the matched document changes
nothing. -/
lemma updateFirst_eq_self {l : List (Nat × α)} {k : Nat} {f : α → α}
    {p : Nat × α} (hfind : findFirst l k = some p) (hf : f p.2 = p.2) :
    updateFirst l k f = l := by
  induction l with
  | nil => simp [findFirst] at hfind
  | cons hd t ih =>
    rcases hd with ⟨i, a⟩
    rw [findFirst_cons] at hfind
    by_cases hik : i = k
    · rw [if_pos hik] at hfind
      injection hfind with hp
      subst hp
      simp only [updateFirst, if_pos hik]
      simp only at hf
      rw [hf]
    · rw [if_neg hik] at hfind
      simp [updateFirst, hik, ih hfind]

/-- save_place on an existing user rewrites exactly that user document with
the $addToSet mutation and returns it. -/
lemma save_place_found {db : DB} {uid : Nat} {payload : SavePlaceBody}
    {p : Nat × User} (hfind : findFirst db.user uid = some p) :
    save_place db uid payload =
      ({ db with user := (updateFirst db.user uid (addSaved payload.place_id)) },
       serializeUser (some (uid, addSaved payload.place_id p.2))) := by
  unfold save_place
  have h : findFirst (updateFirst db.user uid (addSaved payload.place_id)) uid
      = some (uid, addSaved payload.place_id p.2) := by
    rw [findFirst_updateFirst, hfind]
    simp [findFirst_fst hfind]
  rw [h]

/-- C9: save_place has set-union semantics: two calls with the same place
id leave the saved list of the user containing that id exactly once, and a
call whose place id is already saved leaves the user collection entirely
unchanged.  The count hypothesis records that the stored list is
duplicate-free at that id, as every reachable store satisfies. -/
theorem save_place_idempotent (db : DB) (uid : Nat) (pid : String)
    (p : Nat × User) (hfind : findFirst db.user uid = some p)
    (hcount : p.2.saved_places.count pid ≤ 1) :
    (∃ u2, findFirst ((save_place (save_place db uid ⟨pid⟩).1 uid ⟨pid⟩).1).user uid
        = some (uid, u2) ∧ u2.saved_places.count pid = 1) ∧
    (pid ∈ p.2.saved_places → ((save_place db uid ⟨pid⟩).1).user = db.user) := by
  have h1 := @save_place_found db uid ⟨pid⟩ p hfind
  have e1 : (save_place db uid ⟨pid⟩).1 =
      { db with user := (updateFirst db.user uid (addSaved pid)) } := by rw [h1]
  have hfind1 : findFirst
      ({ db with user := (updateFirst db.user uid (addSaved pid)) }).user uid
      = some (uid, addSaved pid p.2) := by
    show findFirst (updateFirst db.user uid (addSaved pid)) uid = _
    rw [findFirst_updateFirst, hfind]
    simp [findFirst_fst hfind]
  have h2 := @save_place_found
    { db with user := (updateFirst db.user uid (addSaved pid)) }
    uid ⟨pid⟩ (uid, addSaved pid p.2) hfind1
  constructor
  · refine ⟨addSaved pid (addSaved pid p.2), ?_, ?_⟩
    · rw [e1, h2]
      show findFirst
        (updateFirst (updateFirst db.user uid (addSaved pid)) uid (addSaved pid))
        uid = _
      rw [findFirst_updateFirst, hfind1]
      rfl
    · show (addToSet (addToSet p.2.saved_places pid) pid).count pid = 1
      rw [addToSet_of_mem (mem_addToSet_self _ _)]
      exact count_addToSet_self _ _ hcount
  · intro hmem
    rw [e1]
    show updateFirst db.user uid (addSaved pid) = db.user
    exact updateFirst_eq_self hfind (by simp [addSaved, addToSet_of_mem hmem])

/-- Witness for C9 at the store holding one user with an empty saved
list. -/
theorem save_place_idempotent_witness :
    (∃ u2, findFirst
        ((save_place (save_place dbWithUser 0 ⟨"p7"⟩).1 0 ⟨"p7"⟩).1).user 0
        = some (0, u2) ∧ u2.saved_places.count "p7" = 1) ∧
    ("p7" ∈ (freshUser exSignup).saved_places →
        ((save_place dbWithUser 0 ⟨"p7"⟩).1).user = dbWithUser.user) :=
  save_place_idempotent dbWithUser 0 "p7" (0, freshUser exSignup)
    (by rfl) (by decide)

/- ## Claim C8: review listing is exactly the match set, newest first -/

/-- C8: list_reviews returns exactly the serialized reviews whose place_id
equals the given one (as a permutation of the filtered store), in
descending creation-time order, and an id matching no review, in
particular one referencing no place, yields the empty sequence rather than
an error. -/
theorem list_reviews_spec (db : DB) (pid : Nat) :
    (list_reviews db pid).Perm
      ((db.review.filter (fun r => r.2.place_id == pid)).map serializeReview) ∧
    List.Pairwise (fun a b => b.created_at ≤ a.created_at)
      (list_reviews db pid) ∧
    ((∀ r ∈ db.review, r.2.place_id ≠ pid) → list_reviews db pid = []) := by
  refine ⟨List.Perm.map _ (List.mergeSort_perm _ _), ?_, ?_⟩
  · have hs := @List.sorted_mergeSort (Nat × Review)
      (fun a b => decide (b.2.created_at ≤ a.2.created_at))
      (fun a b c hab hbc => by
        simp only [decide_eq_true_eq] at *
        omega)
      (fun a b => by
        simp only [Bool.or_eq_true, decide_eq_true_eq]
        omega)
      (db.review.filter (fun r => r.2.place_id == pid))
    exact hs.map serializeReview (fun a b hab => of_decide_eq_true hab)
  · intro h
    have hnil : db.review.filter (fun r => r.2.place_id == pid) = [] :=
      List.filter_eq_nil_iff.mpr (fun r hr => by simpa using h r hr)
    simp [list_reviews, hnil]

/-- Witness for C8: the empty-sequence case at a store with no reviews. -/
theorem list_reviews_spec_witness : list_reviews seededDB 9 = [] :=
  (list_reviews_spec seededDB 9).2.2 (by simp [seededDB, seed_sample, insertPlace, emptyDB])

/- ## Claim C2: the directory filters

The filters list_places builds are raw interpolations of the query
parameters into $regex patterns, so they agree with case-insensitive
equality and substring containment exactly on parameters free of regex
metacharacters; an empty parameter is dropped by the truthiness check. -/

/-- A pattern free of metacharacters reads back as its literal tokens. -/
lemma parseRegex_literal {cs : List Char}
    (h : ∀ ch ∈ cs, ¬(ch = '.' ∨ ch ∈ regexMeta)) :
    parseRegex cs = some (cs.map RTok.lit) := by
  induction cs with
  | nil => rfl
  | cons c cs ih =>
    have hc := h c (by simp)
    push_neg at hc
    have ih2 := ih (fun ch hch => h ch (List.mem_cons_of_mem _ hch))
    simp [parseRegex, hc.2, ih2, hc.1]

/-- Unpacking the Boolean metacharacter-freedom check. -/
lemma regexLiteral_spec {s : String} (h : regexLiteral s = true) :
    ∀ ch ∈ s.data, ¬(ch = '.' ∨ ch ∈ regexMeta) := by
  intro ch hch
  have := List.all_eq_true.mp h ch hch
  simpa using this

/-- Anchored matching of literal tokens is equality of the lowered
characters. -/
lemma toksMatchAll_lit (ps : List Char) (cs : List Char) :
    toksMatchAll (ps.map RTok.lit) cs
      = decide (ps.map Char.toLower = cs.map Char.toLower) := by
  induction ps generalizing cs with
  | nil => cases cs <;> simp [toksMatchAll]
  | cons p ps ih =>
    cases cs with
    | nil => simp [toksMatchAll]
    | cons c cs =>
      rw [Bool.eq_iff_iff]
      simp [toksMatchAll, tokMatch, ih, List.cons.injEq]

/-- Matching literal tokens at the head is the lowered initial-segment
check. -/
lemma toksMatchHead_lit (ps cs : List Char) :
    toksMatchHead (ps.map RTok.lit) cs
      = headSeq (ps.map Char.toLower) (cs.map Char.toLower) := by
  induction ps generalizing cs with
  | nil => simp [toksMatchHead, headSeq]
  | cons p ps ih =>
    cases cs with
    | nil => simp [toksMatchHead, headSeq]
    | cons c cs => simp [toksMatchHead, headSeq, tokMatch, ih]

/-- Unanchored matching of literal tokens is the lowered contiguous-slice
check. -/
lemma toksMatchSome_lit (ps cs : List Char) :
    toksMatchSome (ps.map RTok.lit) cs
      = someSeq (ps.map Char.toLower) (cs.map Char.toLower) := by
  induction cs with
  | nil => simp [toksMatchSome, someSeq, toksMatchHead_lit]
  | cons c cs ih => simp [toksMatchSome, someSeq, toksMatchHead_lit, ih]

/-- On metacharacter-free patterns the anchored filter is case-insensitive
equality. -/
lemma regexMatchFull_literal {pat : String} (h : regexLiteral pat = true)
    (s : String) : regexMatchFull pat s = ciEq pat s := by
  unfold regexMatchFull ciEq lowerChars
  rw [parseRegex_literal (regexLiteral_spec h)]
  simp [toksMatchAll_lit]

/-- On metacharacter-free patterns the unanchored filter is
case-insensitive substring containment. -/
lemma regexMatchSub_literal {pat : String} (h : regexLiteral pat = true)
    (s : String) : regexMatchSub pat s = ciSub pat s := by
  unfold regexMatchSub ciSub lowerChars
  rw [parseRegex_literal (regexLiteral_spec h)]
  simp [toksMatchSome_lit]

/-- One exact filter as the claim words it: a provided parameter is
case-insensitive full-string equality on the field. -/
def specExactFilt (par : Option String) (v : String) : Bool :=
  match par with
  | none => true
  | some c => ciEq c v

/-- The q filter as the claim words it: case-insensitive substring
containment in the name, the description or some tag. -/
def specQFilt (par : Option String) (pl : Place) : Bool :=
  match par with
  | none => true
  | some s => ciSub s pl.name || ciSub s pl.description ||
      pl.main_tags.any (fun tag => ciSub s tag)

/-- The filter conjunction as the claim words it; omitted parameters impose
no constraint. -/
def specPlacePasses (city ty q : Option String) (pl : Place) : Bool :=
  specExactFilt city pl.city && specExactFilt ty pl.type && specQFilt q pl

/-- On nonempty metacharacter-free parameters the exact filter of the code
is the equality filter of the spec. -/
lemma exactFilt_literal {par : Option String}
    (h : ∀ c, par = some c → c ≠ "" ∧ regexLiteral c = true) (v : String) :
    exactFilt par v = specExactFilt par v := by
  cases par with
  | none => rfl
  | some c =>
    obtain ⟨hne, hlit⟩ := h c rfl
    simp [exactFilt, specExactFilt, if_neg hne, regexMatchFull_literal hlit]

/-- On nonempty metacharacter-free parameters the q filter of the code is
the substring filter of the spec. -/
lemma qFilt_literal {par : Option String}
    (h : ∀ s, par = some s → s ≠ "" ∧ regexLiteral s = true) (pl : Place) :
    qFilt par pl = specQFilt par pl := by
  cases par with
  | none => rfl
  | some s =>
    obtain ⟨hne, hlit⟩ := h s rfl
    simp [qFilt, specQFilt, if_neg hne, regexMatchSub_literal hlit]

/-- Counterexample for C2 as frozen: the claim quantifies over every
provided parameter value, but a parameter containing a regex metacharacter
is interpreted as a pattern, not compared literally.  With the seeded store
and city Lis.on (a dot in place of the b), list_places returns the Lisbon
place although no stored place equals Lis.on case-insensitively. -/
theorem list_places_city_claim_cex :
    list_places seededDB (some "Lis.on") none none ≠
      (seededDB.place.filter
        (fun p => specPlacePasses (some "Lis.on") none none p.2)).map
        serializePlace := by
  intro h
  have h2 := congrArg (List.map SPlace.name) h
  exact absurd h2 (by decide)

/-- C2 amended: for every store and every combination of parameters in
which each provided parameter is nonempty and free of regex
metacharacters, list_places returns exactly the serialized places
satisfying the conjunction of case-insensitive full-string equality on
city and type and case-insensitive substring containment of q in name,
description or a tag; omitted (or empty) parameters impose no
constraint. -/
theorem list_places_filter (db : DB) (city ty q : Option String)
    (hc : ∀ c, city = some c → c ≠ "" ∧ regexLiteral c = true)
    (ht : ∀ t, ty = some t → t ≠ "" ∧ regexLiteral t = true)
    (hq : ∀ s, q = some s → s ≠ "" ∧ regexLiteral s = true) :
    list_places db city ty q =
      (db.place.filter (fun p => specPlacePasses city ty q p.2)).map
        serializePlace := by
  unfold list_places
  congr 1
  apply List.filter_congr
  intro p _
  unfold placePasses specPlacePasses
  rw [exactFilt_literal hc, exactFilt_literal ht, qFilt_literal hq]

/-- Witness for the amended C2 at the seeded store with a literal city
filter and a literal substring query. -/
theorem list_places_filter_witness :
    list_places seededDB (some "Lisbon") none (some "safe") =
      (seededDB.place.filter
        (fun p => specPlacePasses (some "Lisbon") none (some "safe") p.2)).map
        serializePlace :=
  list_places_filter seededDB (some "Lisbon") none (some "safe")
    (fun c hc => by cases hc; exact ⟨by decide, by decide⟩)
    (fun t ht => by cases ht)
    (fun s hs => by cases hs; exact ⟨by decide, by decide⟩)

/- ## Claim C6: bounds and the score invariant over reachable stores -/

/-- Rounding never goes below the floor. -/
lemma roundHalfEven_ge_floor (q : ℚ) : Int.floor q ≤ roundHalfEven q := by
  unfold roundHalfEven
  split_ifs <;> omega

/-- Rounding half to even keeps integer bounds. -/
lemma roundHalfEven_bounds {lo hi : ℤ} {q : ℚ} (h1 : (lo : ℚ) ≤ q)
    (h2 : q ≤ (hi : ℚ)) : lo ≤ roundHalfEven q ∧ roundHalfEven q ≤ hi := by
  have hfl : lo ≤ Int.floor q := Int.le_floor.mpr h1
  have hfq : ((Int.floor q : ℤ) : ℚ) ≤ q := Int.floor_le q
  constructor
  · have := roundHalfEven_ge_floor q
    omega
  · have hfh : Int.floor q ≤ hi := by
      have : ((Int.floor q : ℤ) : ℚ) ≤ (hi : ℚ) := le_trans hfq h2
      exact_mod_cast this
    unfold roundHalfEven
    split_ifs with hr1 hr2 hr3
    · exact hfh
    · have hlt : ((Int.floor q + 1 : ℤ) : ℚ) < (hi : ℚ) + 1 := by
        push_cast
        linarith
      have : Int.floor q + 1 < hi + 1 := by exact_mod_cast hlt
      omega
    · exact hfh
    · have hr : (1 : ℚ) / 2 ≤ q - Int.floor q := le_of_not_lt hr1
      have hlt : ((Int.floor q + 1 : ℤ) : ℚ) < (hi : ℚ) + 1 := by
        push_cast
        linarith
      have : Int.floor q + 1 < hi + 1 := by exact_mod_cast hlt
      omega

/-- A two-decimal rounded value of a quantity between one and five stays
between zero and five. -/
lemma round2_bounds {q : ℚ} (h1 : 1 ≤ q) (h5 : q ≤ 5) :
    0 ≤ round2 q ∧ round2 q ≤ 5 := by
  have hlo : ((100 : ℤ) : ℚ) ≤ q * 100 := by push_cast; linarith
  have hhi : q * 100 ≤ ((500 : ℤ) : ℚ) := by push_cast; linarith
  obtain ⟨hl, hh⟩ := roundHalfEven_bounds hlo hhi
  have hl' : (100 : ℚ) ≤ (roundHalfEven (q * 100) : ℚ) := by exact_mod_cast hl
  have hh' : (roundHalfEven (q * 100) : ℚ) ≤ 500 := by exact_mod_cast hh
  unfold round2
  constructor
  · rw [le_div_iff₀ (by norm_num : (0 : ℚ) < 100)]
    linarith
  · rw [div_le_iff₀ (by norm_num : (0 : ℚ) < 100)]
    linarith

/-- Lower bound on the sum of a cast integer list from a pointwise
bound. -/
lemma sum_ratings_lower (l : List Int) (c : ℚ)
    (h : ∀ x ∈ l, c ≤ (x : ℚ)) :
    c * l.length ≤ (l.map (fun n => (n : ℚ))).sum := by
  induction l with
  | nil => simp
  | cons a t ih =>
    have ha := h a (List.mem_cons_self a t)
    have ht := ih (fun x hx => h x (List.mem_cons_of_mem _ hx))
    simp only [List.map_cons, List.sum_cons, List.length_cons, Nat.cast_add,
      Nat.cast_one]
    calc c * ((t.length : ℚ) + 1) = c * (t.length : ℚ) + c := by ring
      _ ≤ (t.map (fun n => (n : ℚ))).sum + (a : ℚ) := add_le_add ht ha
      _ = (a : ℚ) + (t.map (fun n => (n : ℚ))).sum := by ring

/-- Upper bound on the sum of a cast integer list from a pointwise
bound. -/
lemma sum_ratings_upper (l : List Int) (c : ℚ)
    (h : ∀ x ∈ l, (x : ℚ) ≤ c) :
    (l.map (fun n => (n : ℚ))).sum ≤ c * l.length := by
  induction l with
  | nil => simp
  | cons a t ih =>
    have ha := h a (List.mem_cons_self a t)
    have ht := ih (fun x hx => h x (List.mem_cons_of_mem _ hx))
    simp only [List.map_cons, List.sum_cons, List.length_cons, Nat.cast_add,
      Nat.cast_one]
    calc (a : ℚ) + (t.map (fun n => (n : ℚ))).sum ≤ c + c * (t.length : ℚ) :=
        add_le_add ha ht
      _ = c * ((t.length : ℚ) + 1) := by ring

/-- The mean of a nonempty list of ratings between one and five lies
between one and five. -/
lemma ratAvg_bounds {l : List Int} (hne : l ≠ [])
    (hlo : ∀ x ∈ l, 1 ≤ x) (hhi : ∀ x ∈ l, x ≤ 5) :
    1 ≤ ratAvg l ∧ ratAvg l ≤ 5 := by
  have hlen : 0 < (l.length : ℚ) := by
    have := List.length_pos.mpr hne
    exact_mod_cast this
  unfold ratAvg
  constructor
  · rw [le_div_iff₀ hlen]
    have := sum_ratings_lower l 1 (fun x hx => by exact_mod_cast hlo x hx)
    linarith
  · rw [div_le_iff₀ hlen]
    have := sum_ratings_upper l 5 (fun x hx => by exact_mod_cast hhi x hx)
    linarith

/-- Inserting a review for one place leaves the rating lists of all other
places unchanged. -/
lemma ratingsFor_insert_other {db : DB} {pid x : Nat} (payload : NewReview)
    (hne : pid ≠ x) :
    ratingsFor (dbAfterInsertReview db pid payload) x = ratingsFor db x := by
  simp [ratingsFor, dbAfterInsertReview, List.filter_append, reviewDoc, hne]

/-- Every rating in the recomputed list comes from a stored review for the
place. -/
lemma ratingsFor_mem {db : DB} {pid : Nat} {x : Int}
    (hx : x ∈ ratingsFor db pid) :
    ∃ r ∈ db.review, r.2.rating = x := by
  unfold ratingsFor at hx
  obtain ⟨r, hr, hxr⟩ := List.mem_map.mp hx
  exact ⟨r, (List.mem_filter.mp hr).1, hxr⟩

/-- The internal invariant of reachable stores: place ids are distinct and
below the id counter, stored ratings are between one and five, stored
reviews reference stored places, and every place score is in range and is
the rounded rating mean whenever the place has reviews. -/
def Inv (db : DB) : Prop :=
  (db.place.map Prod.fst).Nodup ∧
  (∀ p ∈ db.place, p.1 < db.nextId) ∧
  (∀ r ∈ db.review, 1 ≤ r.2.rating ∧ r.2.rating ≤ 5) ∧
  (∀ r ∈ db.review, r.2.place_id ∈ db.place.map Prod.fst) ∧
  (∀ p ∈ db.place, 0 ≤ p.2.safety_score ∧ p.2.safety_score ≤ 5 ∧
     (ratingsFor db p.1 ≠ [] →
       p.2.safety_score = round2 (ratAvg (ratingsFor db p.1))))

/-- The empty store satisfies the invariant. -/
lemma inv_emptyDB : Inv emptyDB := by
  simp [Inv, emptyDB]

/-- The invariant transfers along operations leaving places and reviews
unchanged and not decreasing the id counter. -/
lemma inv_of_same {db db' : DB} (hp : db'.place = db.place)
    (hr : db'.review = db.review) (hn : db.nextId ≤ db'.nextId)
    (h : Inv db) : Inv db' := by
  obtain ⟨h1, h2, h3, h4, h5⟩ := h
  refine ⟨hp ▸ h1, ?_, hr ▸ h3, ?_, ?_⟩
  · intro p hp'
    rw [hp] at hp'
    exact lt_of_lt_of_le (h2 p hp') hn
  · intro r hr'
    rw [hr] at hr'
    rw [hp]
    exact h4 r hr'
  · intro p hp'
    rw [hp] at hp'
    have hrf : ratingsFor db' p.1 = ratingsFor db p.1 := by
      unfold ratingsFor
      rw [hr]
    rw [hrf]
    exact h5 p hp'

/-- Inserting a fresh place with an in-range score preserves the
invariant; the fresh place has no reviews yet. -/
lemma inv_insertPlace (db : DB) (pl : Place) (hs0 : 0 ≤ pl.safety_score)
    (hs5 : pl.safety_score ≤ 5) (h : Inv db) : Inv (insertPlace db pl).1 := by
  obtain ⟨h1, h2, h3, h4, h5⟩ := h
  have hidlt : ∀ i ∈ db.place.map Prod.fst, i < db.nextId := by
    intro i hi
    obtain ⟨p, hp, rfl⟩ := List.mem_map.mp hi
    exact h2 p hp
  have hfreshrat : ratingsFor db db.nextId = [] := by
    unfold ratingsFor
    have hf : db.review.filter (fun r => r.2.place_id == db.nextId) = [] := by
      apply List.filter_eq_nil_iff.mpr
      intro r hr
      have := hidlt _ (h4 r hr)
      simp only [beq_iff_eq]
      omega
    rw [hf]
    rfl
  refine ⟨?_, ?_, h3, ?_, ?_⟩
  · show ((db.place ++ [(db.nextId, pl)]).map Prod.fst).Nodup
    rw [List.map_append]
    refine List.Nodup.append h1 (by simp) ?_
    intro a ha hb
    simp only [List.map_cons, List.map_nil, List.mem_singleton] at hb
    subst hb
    have := hidlt _ ha
    omega
  · intro p hp
    show p.1 < db.nextId + 1
    rcases List.mem_append.mp hp with hpo | hpn
    · have := h2 p hpo
      omega
    · simp only [List.mem_singleton] at hpn
      subst hpn
      omega
  · intro r hr
    show r.2.place_id ∈ (db.place ++ [(db.nextId, pl)]).map Prod.fst
    rw [List.map_append]
    exact List.mem_append_left _ (h4 r hr)
  · intro p hp
    rcases List.mem_append.mp hp with hpo | hpn
    · exact h5 p hpo
    · simp only [List.mem_singleton] at hpn
      subst hpn
      exact ⟨hs0, hs5, fun hcon => absurd hfreshrat hcon⟩

/-- Seeding the three sample places preserves the invariant: the seeded
scores are all in range. -/
lemma inv_seed (db : DB) (h : Inv db) : Inv (seed_sample db).1 := by
  have i1 := inv_insertPlace db place1
    (by norm_num [place1]) (by norm_num [place1]) h
  have i2 := inv_insertPlace _ place2
    (by norm_num [place2]) (by norm_num [place2]) i1
  have i3 := inv_insertPlace _ place3
    (by norm_num [place3]) (by norm_num [place3]) i2
  exact i3

/-- signup preserves the invariant: it writes only user documents. -/
lemma inv_signup (db : DB) (payload : SignupBody) (h : Inv db) :
    Inv (signup db payload).1 := by
  cases hfind : db.user.find? (fun p => p.2.email == payload.email) with
  | some p =>
    rw [signup_found hfind]
    exact h
  | none =>
    rw [signup_fresh hfind]
    exact @inv_of_same db _ rfl rfl (Nat.le_succ db.nextId) h

/-- A failed add_review request leaves the store untouched. -/
lemma add_review_route_err {db db' : DB} {pid : Nat} {payload : NewReview}
    {e : ApiError}
    (h : add_review_route db pid payload = (db', Except.error e)) :
    db' = db := by
  unfold add_review_route add_review at h
  by_cases hv : 1 ≤ payload.rating ∧ payload.rating ≤ 5
  · rw [if_pos hv] at h
    cases hfind : findFirst db.place pid with
    | none =>
      rw [hfind] at h
      exact (Prod.mk.injEq .. ▸ h).1.symm
    | some q =>
      rw [hfind] at h
      simp only at h
      rw [if_neg (by
        simpa [List.length_eq_zero] using
          ratingsFor_insert_ne_nil db pid payload)] at h
      simp at h
  · rw [if_neg hv] at h
    exact (Prod.mk.injEq .. ▸ h).1.symm

/-- add_review preserves the invariant: on success the touched place gets
the rounded mean of its ratings, which all lie between one and five. -/
lemma inv_add_review (db : DB) (pid : Nat) (payload : NewReview)
    (h : Inv db) : Inv (add_review_route db pid payload).1 := by
  cases hres : add_review_route db pid payload with
  | mk db' res =>
    show Inv db'
    cases res with
    | error e =>
      rw [add_review_route_err hres]
      exact h
    | ok rid =>
      obtain ⟨hv, ⟨q, hq⟩, _, hdb⟩ := add_review_route_ok hres
      subst hdb
      obtain ⟨h1, h2, h3, h4, h5⟩ := h
      have hqmem := findFirst_mem hq
      have hq1 := findFirst_fst hq
      have hpidlt : pid < db.nextId := hq1 ▸ h2 q hqmem
      have hratmem : ∀ x ∈ ratingsFor (dbAfterInsertReview db pid payload) pid,
          1 ≤ x ∧ x ≤ 5 := by
        intro x hx
        obtain ⟨r, hr, hrx⟩ := ratingsFor_mem hx
        rcases List.mem_append.mp hr with hro | hrn
        · exact hrx ▸ h3 r hro
        · simp only [List.mem_singleton] at hrn
          subst hrn
          simp only [reviewDoc] at hrx
          exact hrx ▸ hv
      have havg := ratAvg_bounds (ratingsFor_insert_ne_nil db pid payload)
        (fun x hx => (hratmem x hx).1) (fun x hx => (hratmem x hx).2)
      have hrnd := round2_bounds havg.1 havg.2
      refine ⟨?_, ?_, ?_, ?_, ?_⟩
      · show ((updateFirst db.place pid _).map Prod.fst).Nodup
        rw [map_fst_updateFirst]
        exact h1
      · intro p hp
        show p.1 < db.nextId + 1
        rcases mem_updateFirst_nodup h1 hp with ⟨hpo, _⟩ | ⟨a, hfa, hpa⟩
        · have := h2 p hpo
          omega
        · subst hpa
          omega
      · intro r hr
        rcases List.mem_append.mp hr with hro | hrn
        · exact h3 r hro
        · simp only [List.mem_singleton] at hrn
          subst hrn
          exact hv
      · intro r hr
        show r.2.place_id ∈ ((updateFirst db.place pid _).map Prod.fst)
        rw [map_fst_updateFirst]
        rcases List.mem_append.mp hr with hro | hrn
        · exact h4 r hro
        · simp only [List.mem_singleton] at hrn
          subst hrn
          show pid ∈ db.place.map Prod.fst
          exact hq1 ▸ List.mem_map.mpr ⟨q, hqmem, rfl⟩
      · intro p hp
        rcases mem_updateFirst_nodup h1 hp with ⟨hpo, hpne⟩ | ⟨a, hfa, hpa⟩
        · have hsc : ratingsFor (dbAfterScore db pid payload) p.1
              = ratingsFor db p.1 := by
            have h0 : ratingsFor (dbAfterScore db pid payload) p.1
                = ratingsFor (dbAfterInsertReview db pid payload) p.1 := rfl
            rw [h0]
            exact ratingsFor_insert_other payload (fun hc => hpne hc.symm)
          obtain ⟨b1, b2, b3⟩ := h5 p hpo
          refine ⟨b1, b2, fun hne => ?_⟩
          rw [hsc] at hne ⊢
          exact b3 hne
        · subst hpa
          refine ⟨hrnd.1, hrnd.2, fun _ => rfl⟩

/-- Every reachable store satisfies the invariant. -/
lemma inv_reachable {db : DB} (h : Reachable db) : Inv db := by
  induction h with
  | init => exact inv_emptyDB
  | seed _ ih => exact inv_seed _ ih
  | review pid payload _ ih => exact inv_add_review _ pid payload ih
  | @quiz db0 ans uid _ ih =>
    exact @inv_of_same db0 _ rfl rfl (Nat.le_succ db0.nextId) ih
  | signupStep payload _ ih => exact inv_signup _ payload ih
  | @save db0 uid payload _ ih =>
    exact @inv_of_same db0 _ rfl rfl (le_refl db0.nextId) ih

/-- Counterexample for C6 as frozen: the seeded store is reachable, its
first place has no reviews, yet its safety_score is the seeded 4.7, not
the claimed default 3.5.  Places are seeded with explicit scores, so a
review-less place carries its creation-time score, not 3.5. -/
theorem place_default_score_cex :
    Reachable seededDB ∧ findFirst seededDB.place 0 = some (0, place1) ∧
    ratingsFor seededDB 0 = [] ∧ place1.safety_score ≠ 3.5 := by
  refine ⟨Reachable.seed Reachable.init, by rfl, by rfl, ?_⟩
  norm_num [place1]

/-- C6 amended: in every reachable store, every place document carries
safety_score between 0 and 5, and it equals the two-decimal rounded mean
of the ratings of the associated reviews once at least one review exists;
a place with no reviews keeps the score it was created with (the seed data
uses 4.7, 4.9 and 4.4; the schema default 3.5 applies only when no
explicit score is given). -/
theorem safety_score_invariant (db : DB) (h : Reachable db) :
    ∀ p ∈ db.place, (0 ≤ p.2.safety_score ∧ p.2.safety_score ≤ 5) ∧
      (ratingsFor db p.1 ≠ [] →
        p.2.safety_score = round2 (ratAvg (ratingsFor db p.1))) := by
  obtain ⟨_, _, _, _, h5⟩ := inv_reachable h
  intro p hp
  obtain ⟨a, b, c⟩ := h5 p hp
  exact ⟨⟨a, b⟩, c⟩

/-- Witness for the amended C6 at the seeded store and its first place. -/
theorem safety_score_invariant_witness :
    (0 ≤ place1.safety_score ∧ place1.safety_score ≤ 5) ∧
    (ratingsFor seededDB 0 ≠ [] →
      place1.safety_score = round2 (ratAvg (ratingsFor seededDB 0))) :=
  safety_score_invariant seededDB (Reachable.seed Reachable.init) (0, place1)
    (by simp [seededDB, seed_sample, insertPlace, emptyDB])

end WTS

